import Mathlib

/-!
Verification of the halfcycle-ordering and cycle-assembly core of the
cell-cycling GUI.  The Python classes `Experiment` and `ExperimentContainer`
(core/experiment.py), the ordering-manipulation tab of file_manager.py and the
duplicate `ExperimentContainer` of pages/cellcycling_plotter.py are embedded
shallowly below.  Parts of the data pipeline that live in the external
`echemsuite` library (the half-cycle registry, `suggest_ordering`,
`get_cycles`, `CellCycling.hide`) are modelled from the specification and
marked as such in their doc comments.
-/

namespace CellGui

/-- Python error values relevant to the embedded code; the source raises the
bare exception classes with no payload. -/
inductive PyErr
  | runtimeError
  | valueError
  | typeError
deriving DecidableEq, Repr

/-- Modelled from the spec: the kind tag of a half-cycle record, fixed at
parse time. -/
inductive Kind
  | charge
  | discharge
deriving DecidableEq, Repr

/-- Modelled from the spec: a parsed half-cycle record held by the registry
(the external parser's output).  Only the fields the embedded claims depend on
are kept: the charge/discharge tag, the timestamp used by the ordering
suggestion, and a capacity used by the clean filter.  Capacities are modelled
as integers; the clean filter's test `coulombic efficiency >= 100%` is
rendered as `discharge capacity >= charge capacity` (capacities positive). -/
structure HalfCycleR where
  kind : Kind
  timestamp : Nat
  capacity : Int
deriving DecidableEq, Repr

/-- A registry: the `FileManager._halfcycles` dictionary, filename to record,
in insertion order. -/
abbrev Registry := List (String × HalfCycleR)

/-- Keys of a registry, in order. -/
def registryKeys (reg : Registry) : List String := reg.map Prod.fst

/-- Python dictionary assignment `d[k] = v`: replace in place when the key is
present, append otherwise. -/
def dictInsert (reg : Registry) (name : String) (hc : HalfCycleR) : Registry :=
  if (registryKeys reg).contains name then
    reg.map (fun p => if p.1 == name then (name, hc) else p)
  else
    reg ++ [(name, hc)]

/-- Modelled from the spec: a `Cycle` built by the assembler — a number, an
optional charge side, an optional discharge side and a mutable hidden flag
that starts false. -/
structure CycleS where
  number : Nat
  charge : Option HalfCycleR
  discharge : Option HalfCycleR
  hidden : Bool
deriving DecidableEq, Repr

/-- Look a filename up in the registry. -/
def lookupFile (reg : Registry) (name : String) : Option HalfCycleR :=
  (reg.find? (fun p => p.1 == name)).map Prod.snd

/-- First record of the given kind among a slot's filenames. -/
def firstOfKind (reg : Registry) (k : Kind) (slot : List String) : Option HalfCycleR :=
  (slot.filterMap (lookupFile reg)).find? (fun h => h.kind == k)

/-- Modelled from the spec: the clean filter keeps a cycle only when both
sides are present and the coulombic efficiency is below 100%, the latter
rendered on integer capacities as `discharge capacity < charge capacity`. -/
def keepClean (p : Option HalfCycleR × Option HalfCycleR) : Bool :=
  match p with
  | (some ch, some dh) => decide (dh.capacity < ch.capacity)
  | _ => false

/-- Modelled from the spec: `FileManager.get_cycles` / CycleAssembler.build.
Each slot of the ordering is partitioned into its charge and discharge side;
with the clean flag set, implausible cycles are dropped; surviving cycles are
renumbered sequentially from 0 and start with `hidden := false`. -/
def getCycles (reg : Registry) (ordering : List (List String)) (clean : Bool) :
    List CycleS :=
  let raw := ordering.map (fun slot =>
    (firstOfKind reg Kind.charge slot, firstOfKind reg Kind.discharge slot))
  let kept := if clean then raw.filter keepClean else raw
  kept.enum.map (fun p =>
    { number := p.1, charge := p.2.1, discharge := p.2.2, hidden := false })

/-- Modelled from the spec: a `CellCycling` collection is the ordered list of
built cycles. -/
abbrev CellCyclingS := List CycleS

/-- Modelled from the spec: `CellCycling.hide` marks the given cycle numbers
hidden; numbers outside the range are ignored. -/
def ccHide (cc : CellCyclingS) (nums : List Int) : CellCyclingS :=
  cc.map (fun c => if nums.contains (c.number : Int) then { c with hidden := true } else c)

/-- Modelled from the spec: `suggest_ordering` — records sorted by timestamp,
then a greedy grouping that starts a new slot whenever a charge record meets a
slot already holding one, or whenever two consecutive records share a kind. -/
def suggestStep (acc : List (List (String × Kind))) (p : String × Kind) :
    List (List (String × Kind)) :=
  match acc.getLast? with
  | none => [[p]]
  | some slot =>
    let hasCharge := slot.any (fun q => q.2 == Kind.charge)
    let sameAsLast :=
      match slot.getLast? with
      | some q => q.2 == p.2
      | none => false
    if (p.2 == Kind.charge && hasCharge) || sameAsLast then acc ++ [[p]]
    else acc.dropLast ++ [slot ++ [p]]

/-- Insertion of one record into a timestamp-sorted list. -/
def insertByTime (p : String × HalfCycleR) :
    List (String × HalfCycleR) → List (String × HalfCycleR)
  | [] => [p]
  | q :: rest =>
    if p.2.timestamp < q.2.timestamp then p :: q :: rest else q :: insertByTime p rest

/-- Stable sort of the registry by timestamp. -/
def sortByTime (reg : Registry) : Registry :=
  reg.foldr insertByTime []

/-- Modelled from the spec: `suggest_ordering` over a registry. -/
def suggestOrdering (reg : Registry) : List (List String) :=
  let sorted := (sortByTime reg).map (fun p => (p.1, p.2.kind))
  (sorted.foldl suggestStep []).map (fun slot => slot.map Prod.fst)

/-- State of a Python `Experiment` object (core/experiment.py): the halfcycle
registry standing for the parsed bytestream buffer, the ordering list, the
clean flag, the `_manual_hide` list, and the two cycle-based buffers rebuilt
by `_update_cycles_based_objects`. -/
structure ExpState where
  id : Nat
  name : String
  registry : Registry
  ordering : List (List String)
  clean : Bool
  manualHide : List Int
  cycles : List CycleS
  cellcycling : CellCyclingS
deriving DecidableEq, Repr, Inhabited

/-- `Experiment._update_cycles_based_objects`: rebuild the cycle list and the
CellCycling object, then re-apply the manual hide list. -/
def updateCyclesBasedObjects (st : ExpState) : ExpState :=
  let cycles := getCycles st.registry st.ordering st.clean
  { st with cycles := cycles, cellcycling := ccHide cycles st.manualHide }

/-- `Experiment.__init__` after parsing: ordering from the suggestion, clean
false, empty manual-hide list, cycle buffers built once. -/
def initExperiment (id : Nat) (name : String) (reg : Registry) : ExpState :=
  updateCyclesBasedObjects
    { id := id, name := name, registry := reg, ordering := suggestOrdering reg,
      clean := false, manualHide := [], cycles := [], cellcycling := [] }

/-- `Experiment.hide_cycle`: append the index to `_manual_hide` and rebuild. -/
def hideCycleExp (index : Int) (st : ExpState) : ExpState :=
  updateCyclesBasedObjects { st with manualHide := st.manualHide ++ [index] }

/-- `Experiment.unhide_all_cycles`: clear `_manual_hide` and rebuild. -/
def unhideAllExp (st : ExpState) : ExpState :=
  updateCyclesBasedObjects { st with manualHide := [] }

/-- `Experiment.clean` setter: store the flag and rebuild. -/
def cleanSetter (value : Bool) (st : ExpState) : ExpState :=
  updateCyclesBasedObjects { st with clean := value }

/-- `Experiment.append_file`: add the bytestream; with autoparse, re-parse and
rebuild. -/
def appendFileExp (filename : String) (hc : HalfCycleR) (autoparse : Bool)
    (st : ExpState) : ExpState :=
  let st1 := { st with registry := dictInsert st.registry filename hc }
  if autoparse then updateCyclesBasedObjects st1 else st1

/-- `Experiment.remove_file`: delete the file if present, re-parse, reset the
ordering to the suggested one and rebuild; raise ValueError otherwise. -/
def removeFileExp (filename : String) (st : ExpState) : Except PyErr ExpState :=
  if (registryKeys st.registry).contains filename then
    let reg := st.registry.filter (fun p => p.1 != filename)
    Except.ok (updateCyclesBasedObjects
      { st with registry := reg, ordering := suggestOrdering reg })
  else
    Except.error PyErr.valueError

/-- Result of a call to the `Experiment.ordering` setter: the console prints
it produced, the state of the object when control left the method, and the
raised error, if any. -/
structure SetterResult where
  prints : List String
  state : ExpState
  error : Option PyErr
deriving DecidableEq, Repr

/-- The `Experiment.ordering` setter: flatten the new ordering, check that
every registry file occurs in it (printing a message naming the first missing
file before raising a bare RuntimeError), check that every listed file is
known (bare RuntimeError), then store the ordering and rebuild. -/
def orderingSetter (st : ExpState) (newOrdering : List (List String)) :
    SetterResult :=
  let filelist := newOrdering.flatten
  let keys := registryKeys st.registry
  match keys.find? (fun key => decide (key ∉ filelist)) with
  | some key =>
    { prints := ["The file " ++ key ++ " is missing from the new ordering"],
      state := st, error := some PyErr.runtimeError }
  | none =>
    match filelist.find? (fun name => decide (name ∉ keys)) with
    | some _ => { prints := [], state := st, error := some PyErr.runtimeError }
    | none =>
      { prints := [],
        state := updateCyclesBasedObjects { st with ordering := newOrdering },
        error := none }

/-- Result of evaluating `self += source` on an `Experiment`: either the
merged experiment, or — when the names differ — the bare class `ValueError`
returned (not raised) by `__iadd__`, with the state of `self` at that point
attached. -/
inductive IAddResult
  | exp (st : ExpState)
  | classValueError (selfAfter : ExpState)
deriving DecidableEq, Repr

/-- `Experiment.__iadd__` for an argument that is an `Experiment`: when the
names differ the method returns the class `ValueError` before any statement
touches `self`; otherwise it copies the source bytestreams into the local
buffer, re-parses and rebuilds. -/
def iaddExp (self source : ExpState) : IAddResult :=
  if source.name ≠ self.name then IAddResult.classValueError self
  else
    let reg := source.registry.foldl (fun r p => dictInsert r p.1 p.2) self.registry
    IAddResult.exp (updateCyclesBasedObjects { self with registry := reg })

/-- Modelled from the spec: `CellCycling.get_numbers` followed by
`_numbers[-1]` — the last cycle number of a member, absent when the member has
no cycles (Python would raise IndexError there). -/
def expNumbers (st : ExpState) : List Int :=
  st.cellcycling.map (fun c => (c.number : Int))

/-- `ExperimentContainer.max_cycles_numbers` (core/experiment.py): the list of
each member's last cycle number; `none` models the IndexError raised on a
member with no cycles. -/
def maxCyclesNumbers : List ExpState → Option (List Int)
  | [] => some []
  | e :: rest =>
    match (expNumbers e).getLast? with
    | none => none
    | some m =>
      match maxCyclesNumbers rest with
      | none => none
      | some ms => some (m :: ms)

/-- One iteration of the `cumulative_sum` loop of
`ExperimentContainer.hide_cycle`: append the number itself at the first
position and `previous + number + 1` afterwards. -/
def cumulativeStep (acc : List Int) (number : Int) : List Int :=
  acc ++ [match acc.getLast? with
          | none => number
          | some prev => prev + number + 1]

/-- The `cumulative_sum` list built by `ExperimentContainer.hide_cycle`. -/
def cumulativeSum (nums : List Int) : List Int :=
  nums.foldl cumulativeStep []

/-- The selection loop of `ExperimentContainer.hide_cycle`: the first index
whose threshold is at least the requested id, paired with the local cycle id
(`cumulative_id` at index 0, `cumulative_id - cumulative_sum[i-1] - 1`
afterwards).  The previous threshold is carried along; `none` models the
`experiment_id = None` fall-through (a TypeError in Python). -/
def selectLoop (g : Int) : List Int → Nat → Option Int → Option (Nat × Int)
  | [], _, _ => none
  | t :: rest, i, prev =>
    if g ≤ t then
      some (i, match prev with
               | none => g
               | some p => g - p - 1)
    else selectLoop g rest (i + 1) (some t)

/-- `ExperimentContainer.hide_cycle` (core/experiment.py): build the
cumulative thresholds, locate the member owning the global id, and forward the
local id to that member's `hide_cycle`. -/
def containerHideCycle (exps : List ExpState) (g : Int) : Option (List ExpState) :=
  match maxCyclesNumbers exps with
  | none => none
  | some nums =>
    match selectLoop g (cumulativeSum nums) 0 none with
    | none => none
    | some (i, cid) =>
      match exps.get? i with
      | none => none
      | some e => some (exps.set i (hideCycleExp cid e))

/-- `ExperimentContainer.add_experiment` (core/experiment.py): append unless
this very experiment object is already a member, in which case a bare
RuntimeError is raised.  Python compares with default object equality; the
univocal `_id` field makes structural equality of states coincide with object
identity. -/
def addExperiment (exps : List ExpState) (e : ExpState) : Except PyErr (List ExpState) :=
  if e ∉ exps then Except.ok (exps ++ [e])
  else Except.error PyErr.runtimeError

/-! The duplicate `ExperimentContainer` of pages/cellcycling_plotter.py,
transcribed independently from that file. -/

/-- `max_cycles_numbers` of the plotter-page container copy. -/
def maxCyclesNumbersP : List ExpState → Option (List Int)
  | [] => some []
  | e :: rest =>
    match (expNumbers e).getLast? with
    | none => none
    | some m =>
      match maxCyclesNumbersP rest with
      | none => none
      | some ms => some (m :: ms)

/-- The `cumulative_sum` loop body of the plotter-page copy. -/
def cumulativeStepP (acc : List Int) (number : Int) : List Int :=
  acc ++ [match acc.getLast? with
          | none => number
          | some prev => prev + number + 1]

/-- The `cumulative_sum` list of the plotter-page copy. -/
def cumulativeSumP (nums : List Int) : List Int :=
  nums.foldl cumulativeStepP []

/-- The selection loop of the plotter-page copy of `hide_cycle`. -/
def selectLoopP (g : Int) : List Int → Nat → Option Int → Option (Nat × Int)
  | [], _, _ => none
  | t :: rest, i, prev =>
    if g ≤ t then
      some (i, match prev with
               | none => g
               | some p => g - p - 1)
    else selectLoopP g rest (i + 1) (some t)

/-- `ExperimentContainer.hide_cycle` as defined in
pages/cellcycling_plotter.py. -/
def containerHideCycleP (exps : List ExpState) (g : Int) : Option (List ExpState) :=
  match maxCyclesNumbersP exps with
  | none => none
  | some nums =>
    match selectLoopP g (cumulativeSumP nums) 0 none with
    | none => none
    | some (i, cid) =>
      match exps.get? i with
      | none => none
      | some e => some (exps.set i (hideCycleExp cid e))

/-! The halfcycle-ordering manipulation tab of file_manager.py: inversion of
the per-file (cycle, halfcycle) buffer into the cycle-based slot list,
detection of repetitions and gaps, and installation of the new ordering. -/

/-- A Python value as seen by `str.join`: either a string, or an int (which
makes `join` raise a TypeError). -/
inductive PyVal
  | str (s : String)
  | int (n : Int)
deriving DecidableEq, Repr

/-- Tail of Python `sep.join(items)` once a first string has been accepted. -/
def strJoinAux (sep : String) : List PyVal → String → Except PyErr String
  | [], acc => Except.ok acc
  | item :: rest, acc =>
    match item with
    | PyVal.str s => strJoinAux sep rest (acc ++ sep ++ s)
    | PyVal.int _ => Except.error PyErr.typeError

/-- Python `sep.join(items)`: concatenates string items with the separator and
raises a TypeError at the first non-string item. -/
def strJoin (sep : String) (items : List PyVal) : Except PyErr String :=
  match items with
  | [] => Except.ok ""
  | item :: rest =>
    match item with
    | PyVal.str s => strJoinAux sep rest s
    | PyVal.int _ => Except.error PyErr.typeError

/-- One slot of the intermediate `cycle_based_buffer`: a Python dictionary
from intra-slot position to filename, as an insertion-ordered list with unique
keys. -/
abbrev SlotBuf := List (Nat × String)

/-- Python dictionary assignment on a slot buffer. -/
def slotSet (slot : SlotBuf) (key : Nat) (v : String) : SlotBuf :=
  if slot.any (fun q => q.1 == key) then
    slot.map (fun q => if q.1 == key then (key, v) else q)
  else slot ++ [(key, v)]

/-- The `max_cycle` accumulator of the manipulation tab: the greatest cycle
index a file is assigned to, at least 0. -/
def maxCycleOf (entries : List (String × Nat × Nat)) : Nat :=
  entries.foldl (fun m e => max m e.2.1) 0

/-- One iteration of the inversion loop: flag a repetition when the slot
already holds the intra-slot position, then let the later file silently
overwrite the earlier one. -/
def invertStep (acc : Bool × List SlotBuf) (e : String × Nat × Nat) :
    Bool × List SlotBuf :=
  let slot := acc.2.getD e.2.1 []
  (acc.1 || slot.any (fun q => q.1 == e.2.2),
    acc.2.set e.2.1 (slotSet slot e.2.2 e.1))

/-- The inversion of the flat `ordering_buffer` (filename to (cycle,
halfcycle), in dictionary insertion order) into the `cycle_based_buffer`,
together with the repetition flag. -/
def invert (entries : List (String × Nat × Nat)) : Bool × List SlotBuf :=
  entries.foldl invertStep (false, List.replicate (maxCycleOf entries + 1) [])

/-- The `missing` list: indices of empty slots of the cycle-based buffer. -/
def missingOf (buf : List SlotBuf) : List Nat :=
  (buf.enum.filter (fun p => decide (p.2 = []))).map Prod.fst

/-- Rebuild one slot of the new ordering: filenames appended in order of their
intra-slot index.  The branch that calls this only runs when every slot is
non-empty, matching Python's `max(buffer.keys())` precondition. -/
def buildSlot (slot : SlotBuf) : List String :=
  let mx := slot.foldl (fun m q => max m q.1) 0
  (List.range (mx + 1)).filterMap (fun i => (slot.find? (fun q => q.1 == i)).map Prod.snd)

/-- The `new_ordering` assembled from the cycle-based buffer. -/
def buildNewOrdering (buf : List SlotBuf) : List (List String) :=
  buf.map buildSlot

/-- Outcome of one pass of the manipulation tab over the edited buffer. -/
inductive TabOutcome
  | crash (e : PyErr)
  | gapWarning (msg : String)
  | repetitionWarning
  | installed (newOrdering : List (List String))
  | unchanged
deriving DecidableEq, Repr

/-- The ordering-manipulation pass of file_manager.py: invert the edited
buffer, warn on holes in the cycle sequence (the missing indices are ints, so
the `", ".join` of the warning raises a TypeError), otherwise warn on
repetitions, otherwise assemble the new ordering and install it when it
differs from the current one. -/
def processOrderingTab (entries : List (String × Nat × Nat))
    (currentOrdering : List (List String)) : TabOutcome :=
  let inverted := invert entries
  let missing := missingOf inverted.2
  if missing ≠ [] then
    match strJoin ", " (missing.map (fun i => PyVal.int (i : Int))) with
    | Except.error e => TabOutcome.crash e
    | Except.ok joined =>
      TabOutcome.gapWarning
        ("WARNING: The Cycles IDs must be subsequent. The following IDs are missing: "
          ++ joined)
  else if inverted.1 then TabOutcome.repetitionWarning
  else
    let newOrdering := buildNewOrdering inverted.2
    if newOrdering ≠ currentOrdering then TabOutcome.installed newOrdering
    else TabOutcome.unchanged

/-! Sample data used by witnesses and counterexamples. -/

/-- A charge half-cycle at the given timestamp. -/
def hcC (t : Nat) : HalfCycleR := ⟨Kind.charge, t, 10⟩

/-- A discharge half-cycle at the given timestamp. -/
def hcD (t : Nat) : HalfCycleR := ⟨Kind.discharge, t, 5⟩

/-- A six-file registry assembling into three cycles. -/
def regA : Registry :=
  [("a0", hcC 0), ("a1", hcD 1), ("a2", hcC 2), ("a3", hcD 3), ("a4", hcC 4), ("a5", hcD 5)]

/-- A four-file registry assembling into two cycles. -/
def regB : Registry :=
  [("b0", hcC 0), ("b1", hcD 1), ("b2", hcC 2), ("b3", hcD 3)]

/-- Sample experiment with three cycles. -/
def eA : ExpState := initExperiment 0 "A" regA

/-- Sample experiment with two cycles. -/
def eB : ExpState := initExperiment 1 "B" regB

/-- A distinct experiment object carrying the same name as `eA`. -/
def eA2 : ExpState := initExperiment 2 "A" regB

/-! Rebuild-triggering operations of an Experiment and the manual-hide
invariant. -/

/-- The user actions on an `Experiment` that the spec lists as triggering a
rebuild of the cycle-based objects. -/
inductive ExpOp
  | setOrdering (o : List (List String))
  | setClean (b : Bool)
  | appendFile (filename : String) (hc : HalfCycleR) (autoparse : Bool)
  | removeFile (filename : String)
  | hideCycle (n : Int)
  | unhideAll
deriving DecidableEq, Repr

/-- Dispatch of an operation to its method on the experiment state. -/
def applyOp : ExpOp → ExpState → Except PyErr ExpState
  | ExpOp.setOrdering o, st =>
    let r := orderingSetter st o
    match r.error with
    | some e => Except.error e
    | none => Except.ok r.state
  | ExpOp.setClean b, st => Except.ok (cleanSetter b st)
  | ExpOp.appendFile n hc ap, st => Except.ok (appendFileExp n hc ap st)
  | ExpOp.removeFile n, st => removeFileExp n st
  | ExpOp.hideCycle n, st => Except.ok (hideCycleExp n st)
  | ExpOp.unhideAll, st => Except.ok (unhideAllExp st)

/-- Whether the operation reaches `_update_cycles_based_objects` (a file
append with autoparse disabled does not). -/
def triggersRebuild : ExpOp → Bool
  | ExpOp.appendFile _ _ ap => ap
  | _ => true

/-! Hide/unhide round trip. -/

/-- The observable visibility of an experiment: each cycle number with its
hidden flag. -/
def visibility (st : ExpState) : List (Nat × Bool) :=
  st.cellcycling.map (fun c => (c.number, c.hidden))

/-- A reachable experiment state: the CellCycling buffer agrees with the
rebuild from (registry, ordering, clean) with the manual hides applied —
exactly what `_update_cycles_based_objects` establishes. -/
def Consistent (st : ExpState) : Prop :=
  st.cellcycling = ccHide (getCycles st.registry st.ordering st.clean) st.manualHide

/-! The spec-side offset formula of section 4.5 and the correctness of the
container's hide-by-global-index. -/

/-- The contiguous cycle-number list 0..c-1 of a member with c cycles. -/
def contiguousTo (c : Nat) : List Int :=
  (List.range c).map Int.ofNat

/-- The members' max cycle numbers for contiguous counts: each count minus
one. -/
def maxNumsOf (counts : List Nat) : List Int :=
  counts.map (fun c => Int.ofNat c - 1)

/-- Modelled from the spec: the cumulative offset of member i —
offset(0) = 0 and offset(i) = offset(i-1) + max_cycle_number(member i-1) + 1,
expressed over the list of members' max cycle numbers. -/
def offsetSpec (maxNums : List Int) : Nat → Int
  | 0 => 0
  | i + 1 => offsetSpec maxNums i + maxNums.getD i 0 + 1

/-- Modelled from the spec: the cumulative threshold of member i — its offset
plus its own max cycle number. -/
def thresholdSpec (maxNums : List Int) (i : Nat) : Int :=
  offsetSpec maxNums i + maxNums.getD i 0

/-- Recursive characterization of the cumulative-sum loop, carrying the
previous threshold. -/
def cumulAux (prev : Option Int) : List Int → List Int
  | [] => []
  | n :: rest =>
    let t := match prev with
             | none => n
             | some p => p + n + 1
    t :: cumulAux (some t) rest

/-- The local cycle id the selection loop produces when it stops at index i. -/
def selCid (g : Int) (cum : List Int) (prev : Option Int) : Nat → Int
  | 0 =>
    match prev with
    | none => g
    | some p => g - p - 1
  | i + 1 => g - ((cum.get? i).getD 0) - 1

/-! Claims about the experiment container and the dunder methods. -/

/-- Helper: the two transcriptions of `max_cycles_numbers` agree. -/
theorem maxCyclesNumbersP_eq (exps : List ExpState) :
    maxCyclesNumbersP exps = maxCyclesNumbers exps := by
  induction exps with
  | nil => rfl
  | cons e rest ih => simp [maxCyclesNumbersP, maxCyclesNumbers, ih]

/-- Helper: the two transcriptions of the cumulative-sum loop agree. -/
theorem cumulativeSumP_eq (nums : List Int) :
    cumulativeSumP nums = cumulativeSum nums := rfl

/-- Helper: the two transcriptions of the selection loop agree. -/
theorem selectLoopP_eq (g : Int) (l : List Int) (i : Nat) (prev : Option Int) :
    selectLoopP g l i prev = selectLoop g l i prev := by
  induction l generalizing i prev with
  | nil => rfl
  | cons t rest ih =>
    simp only [selectLoopP, selectLoop, ih]

/-- Helper: the container `hide_cycle` of core/experiment.py and the copy in
pages/cellcycling_plotter.py compute the same result on every input. -/
theorem hideCopiesAgree (exps : List ExpState) (g : Int) :
    containerHideCycle exps g = containerHideCycleP exps g := by
  simp [containerHideCycle, containerHideCycleP, maxCyclesNumbersP_eq,
    cumulativeSumP_eq, selectLoopP_eq]

/-- C8 counterexample: the claim that the two `hide_cycle` implementations
differ on some member configuration and global index is false — no such
configuration exists, the two functions agree everywhere. -/
theorem hide_cycle_copies_do_not_differ :
    ¬ ∃ (exps : List ExpState) (g : Int),
        containerHideCycle exps g ≠ containerHideCycleP exps g := by
  intro h
  obtain ⟨exps, g, hne⟩ := h
  exact hne (hideCopiesAgree exps g)

/-- C8 (amended): the two implementations of the cumulative-offset
computation — `ExperimentContainer.hide_cycle` in core/experiment.py and the
copy in pages/cellcycling_plotter.py — are identical: both add one per member
boundary, and for every member configuration and global index they resolve to
the same (experiment, local cycle) pair. -/
theorem hide_cycle_copies_agree :
    ∀ (exps : List ExpState) (g : Int),
      containerHideCycle exps g = containerHideCycleP exps g :=
  fun exps g => hideCopiesAgree exps g

/-- C9 counterexample: adding a member whose name is already present does not
fail — `add_experiment` compares the experiment objects themselves, so a
distinct experiment carrying a duplicate name is appended without error. -/
theorem duplicate_name_member_accepted :
    (∃ m ∈ [eA], m.name = eA2.name) ∧
      addExperiment [eA] eA2 = Except.ok [eA, eA2] := by
  constructor
  · exact ⟨eA, by simp, by decide⟩
  · rfl

/-- C9 (amended): `ExperimentContainer.add_experiment` raises (a bare
RuntimeError, not a dedicated DuplicateMember error) exactly when the very
same experiment object is already a member, and appends the experiment
otherwise — even when another member carries the same name. -/
theorem add_experiment_identity_check :
    ∀ (exps : List ExpState) (e : ExpState),
      (addExperiment exps e = Except.error PyErr.runtimeError ↔ e ∈ exps) ∧
        (e ∉ exps → addExperiment exps e = Except.ok (exps ++ [e])) := by
  intro exps e
  by_cases h : e ∈ exps <;> simp [addExperiment, h]

/-- C9 witness: instantiating the amended claim at a container already holding
`eA` and a fresh experiment `eA2` with the same name. -/
theorem add_experiment_identity_witness :
    addExperiment [eA] eA2 = Except.ok ([eA] ++ [eA2]) :=
  (add_experiment_identity_check [eA] eA2).2 (by decide)

/-- C10: evaluating `a += b` on experiments with different names raises
nothing and leaves `a` untouched — `__iadd__` returns the class `ValueError`
(unraised), so the merge silently does not happen and the value bound by the
`+=` expression is no longer an Experiment. -/
theorem iadd_name_mismatch_silent :
    ∀ a b : ExpState, b.name ≠ a.name →
      iaddExp a b = IAddResult.classValueError a ∧
        ∀ st, iaddExp a b ≠ IAddResult.exp st := by
  intro a b h
  refine ⟨by simp [iaddExp, h], fun st hst => ?_⟩
  simp [iaddExp, h] at hst

/-- C10 witness: instantiating the claim on the sample experiments `eA` and
`eB`, whose names differ. -/
theorem iadd_name_mismatch_witness :
    iaddExp eA eB = IAddResult.classValueError eA :=
  (iadd_name_mismatch_silent eA eB (by decide)).1

/-- C4: on a buffer that assigns its only file to cycle 1, leaving cycle 0
empty, the gap branch of the manipulation tab does not produce the warning
naming index 0 — the `", ".join` of the integer missing-index list raises a
TypeError. -/
theorem gap_warning_crashes_on_join :
    processOrderingTab [("a", 1, 0)] [] = TabOutcome.crash PyErr.typeError := by
  decide

/-- Helper: a predicate whose filter over a list is a singleton is first
satisfied at exactly that element. -/
theorem find?_of_filter_singleton {α : Type} (l : List α) (p : α → Bool) (x : α)
    (h : l.filter p = [x]) : l.find? p = some x := by
  induction l with
  | nil => simp at h
  | cons a rest ih =>
    by_cases hp : p a
    · simp [hp] at h ⊢
      exact h.1
    · simp [hp] at h ⊢
      exact ih h

/-- C5: whenever the new ordering fails validation — a registry file is
absent from it, or it lists a file the registry does not know — the
`Experiment.ordering` setter raises before mutating anything: the state it
leaves behind is exactly the input state, stored ordering and cycle buffers
included. -/
theorem ordering_setter_atomic :
    ∀ (st : ExpState) (o : List (List String)),
      ((∃ k ∈ registryKeys st.registry, k ∉ o.flatten) ∨
        (∃ n ∈ o.flatten, n ∉ registryKeys st.registry)) →
      (orderingSetter st o).state = st ∧
        (orderingSetter st o).error = some PyErr.runtimeError := by
  intro st o h
  cases hf : (registryKeys st.registry).find? (fun key => decide (key ∉ o.flatten)) with
  | some key =>
    simp only [orderingSetter]
    rw [hf]
    exact ⟨rfl, rfl⟩
  | none =>
    have hall : ∀ k ∈ registryKeys st.registry, k ∈ o.flatten := by
      intro k hk
      have := List.find?_eq_none.mp hf k hk
      simpa using this
    rcases h with ⟨k, hk, hnk⟩ | ⟨n, hn, hnn⟩
    · exact absurd (hall k hk) hnk
    · have hsome :
          ((o.flatten).find? (fun name => decide (name ∉ registryKeys st.registry))).isSome := by
        rw [List.find?_isSome]
        exact ⟨n, hn, by simpa using hnn⟩
      cases hg : (o.flatten).find? (fun name => decide (name ∉ registryKeys st.registry)) with
      | none => rw [hg] at hsome; simp at hsome
      | some m =>
        simp only [orderingSetter]
        rw [hf, hg]
        exact ⟨rfl, rfl⟩

/-- C5 witness: the setter applied to the sample experiment and an ordering
missing the file a5 leaves the state untouched and raises. -/
theorem ordering_setter_atomic_witness :
    (orderingSetter eA [["a0", "a1"], ["a2", "a3"], ["a4"]]).state = eA ∧
      (orderingSetter eA [["a0", "a1"], ["a2", "a3"], ["a4"]]).error =
        some PyErr.runtimeError :=
  ordering_setter_atomic eA [["a0", "a1"], ["a2", "a3"], ["a4"]]
    (Or.inl ⟨"a5", by decide, by decide⟩)

/-- C3 counterexample: the error raised for an ordering missing a registry
file is the same bare RuntimeError raised for an ordering naming an unknown
file — the exception carries no filename (the name only reaches a console
print), so the failure is generic, not a MissingFile error naming the file. -/
theorem missing_file_error_is_generic :
    (orderingSetter eA [["a0", "a1"], ["a2", "a3"], ["a4"]]).error =
        some PyErr.runtimeError ∧
      (orderingSetter eA [["a0", "a1"], ["a2", "a3"], ["a4", "a5"], ["zz"]]).error =
        some PyErr.runtimeError ∧
      (orderingSetter eA [["a0", "a1"], ["a2", "a3"], ["a4", "a5"], ["zz"]]).prints = [] := by
  refine ⟨by decide, by decide, by decide⟩

/-- C3 (amended): for every new ordering from which exactly one registry
filename is missing, the `Experiment.ordering` setter fails before mutating
anything by printing a console message that names the missing file and then
raising a bare RuntimeError; the raised error itself is generic and does not
carry the filename. -/
theorem missing_file_prints_name_and_raises :
    ∀ (st : ExpState) (o : List (List String)) (f : String),
      (registryKeys st.registry).filter (fun k => decide (k ∉ o.flatten)) = [f] →
      orderingSetter st o =
        { prints := ["The file " ++ f ++ " is missing from the new ordering"],
          state := st, error := some PyErr.runtimeError } := by
  intro st o f h
  have hfind := find?_of_filter_singleton _ _ _ h
  simp only [orderingSetter]
  rw [hfind]

/-- C3 witness: instantiating the amended claim on the sample experiment and
an ordering from which exactly the file a5 is missing. -/
theorem missing_file_prints_witness :
    orderingSetter eA [["a0", "a1"], ["a2", "a3"], ["a4"]] =
      { prints := ["The file " ++ "a5" ++ " is missing from the new ordering"],
        state := eA, error := some PyErr.runtimeError } :=
  missing_file_prints_name_and_raises eA [["a0", "a1"], ["a2", "a3"], ["a4"]] "a5"
    (by decide)

/-- Helper: reading a just-written index of a list. -/
theorem getD_set_self {α : Type} (l : List α) (i : Nat) (a d : α) (h : i < l.length) :
    (l.set i a).getD i d = a := by
  rw [List.getD_eq_getElem?_getD, List.getElem?_set_self (by simpa using h)]
  rfl

/-- Helper: reading an untouched index of a list. -/
theorem getD_set_ne {α : Type} (l : List α) (i j : Nat) (a d : α) (h : i ≠ j) :
    (l.set i a).getD j d = l.getD j d := by
  rw [List.getD_eq_getElem?_getD, List.getElem?_set_ne h, List.getD_eq_getElem?_getD]

/-- Helper: after a dictionary assignment the assigned key is present. -/
theorem slotSet_key_present (slot : SlotBuf) (k : Nat) (v : String) :
    (slotSet slot k v).any (fun q => q.1 == k) = true := by
  simp only [slotSet]
  split
  · next hin =>
    rw [List.any_eq_true] at hin ⊢
    obtain ⟨q, hq, hqk⟩ := hin
    refine ⟨(k, v), List.mem_map.mpr ⟨q, hq, by simp [hqk]⟩, by simp⟩
  · rw [List.any_eq_true]
    exact ⟨(k, v), by simp⟩

/-- Helper: a dictionary assignment never removes a key. -/
theorem slotSet_preserves_key (slot : SlotBuf) (k k' : Nat) (v : String)
    (h : slot.any (fun q => q.1 == k') = true) :
    (slotSet slot k v).any (fun q => q.1 == k') = true := by
  simp only [slotSet]
  rw [List.any_eq_true] at h
  obtain ⟨q, hq, hqk⟩ := h
  split
  · rw [List.any_eq_true]
    by_cases hk : q.1 == k
    · refine ⟨(k, v), List.mem_map.mpr ⟨q, hq, by simp [hk]⟩, ?_⟩
      have h1 : q.1 = k := by simpa using hk
      have h2 : q.1 = k' := by simpa using hqk
      simp [← h1, h2]
    · refine ⟨q, List.mem_map.mpr ⟨q, hq, by simp [hk]⟩, hqk⟩
  · rw [List.any_eq_true]
    exact ⟨q, List.mem_append.mpr (Or.inl hq), hqk⟩

/-- Helper: the inversion fold returns a true repetition flag whenever the
remaining entries contain a collision, a pending hit on the buffer, or the
flag is already set. -/
theorem invert_fold_flag (entries : List (String × Nat × Nat)) :
    ∀ (r : Bool) (buf : List SlotBuf),
      (∀ e ∈ entries, e.2.1 < buf.length) →
      ((∃ e ∈ entries, (buf.getD e.2.1 []).any (fun q => q.1 == e.2.2) = true) ∨
        ¬ entries.Pairwise (fun a b => a.2 ≠ b.2) ∨ r = true) →
      (entries.foldl invertStep (r, buf)).1 = true := by
  induction entries with
  | nil =>
    intro r buf _ h
    rcases h with ⟨e, he, -⟩ | hpw | hr
    · exact absurd he (List.not_mem_nil e)
    · exact absurd List.Pairwise.nil hpw
    · simpa using hr
  | cons e rest ih =>
    intro r buf hb h
    rw [List.foldl_cons]
    have hbe : e.2.1 < buf.length := hb e (List.mem_cons_self e rest)
    have hstep : invertStep (r, buf) e =
        (r || (buf.getD e.2.1 []).any (fun q => q.1 == e.2.2),
          buf.set e.2.1 (slotSet (buf.getD e.2.1 []) e.2.2 e.1)) := rfl
    rw [hstep]
    apply ih
    · intro e' he'
      rw [List.length_set]
      exact hb e' (List.mem_cons_of_mem e he')
    · rcases h with ⟨e', he', hhit⟩ | hpw | hr
      · rcases List.mem_cons.mp he' with rfl | he'r
        · -- the pending hit is on this very entry: the flag goes true now
          right; right
          rw [hhit]
          simp
        · -- the pending hit survives the write
          left
          refine ⟨e', he'r, ?_⟩
          by_cases hc : e.2.1 = e'.2.1
          · rw [← hc, getD_set_self _ _ _ _ hbe]
            rw [← hc] at hhit
            exact slotSet_preserves_key _ _ _ _ hhit
          · rw [getD_set_ne _ _ _ _ _ hc]
            exact hhit
      · rw [List.pairwise_cons] at hpw
        rcases Classical.em (rest.Pairwise (fun a b => a.2 ≠ b.2)) with hpr | hpr
        · have hna : ¬ ∀ a' ∈ rest, e.2 ≠ a'.2 := fun hA => hpw ⟨hA, hpr⟩
          push_neg at hna
          obtain ⟨b, hbm, hbeq⟩ := hna
          left
          refine ⟨b, hbm, ?_⟩
          have hcyc : b.2.1 = e.2.1 := by rw [← hbeq]
          have hhalf : b.2.2 = e.2.2 := by rw [← hbeq]
          rw [hcyc, getD_set_self _ _ _ _ hbe, hhalf]
          exact slotSet_key_present _ _ _
        · right; left; exact hpr
      · right; right
        rw [hr]
        simp

/-- Helper: the max-cycle fold only grows its accumulator. -/
theorem foldl_max_le_init (l : List (String × Nat × Nat)) :
    ∀ init : Nat, init ≤ l.foldl (fun m e => max m e.2.1) init := by
  induction l with
  | nil => intro init; exact Nat.le_refl init
  | cons a rest ih =>
    intro init
    exact Nat.le_trans (Nat.le_max_left init a.2.1) (ih (max init a.2.1))

/-- Helper: every assigned cycle index is bounded by `max_cycle`. -/
theorem maxCycleOf_bound (entries : List (String × Nat × Nat))
    (e : String × Nat × Nat) (he : e ∈ entries) : e.2.1 ≤ maxCycleOf entries := by
  rw [maxCycleOf]
  generalize 0 = init
  induction entries generalizing init with
  | nil => exact absurd he (List.not_mem_nil e)
  | cons a rest ih =>
    rcases List.mem_cons.mp he with rfl | her
    · rw [List.foldl_cons]
      exact Nat.le_trans (Nat.le_max_right init e.2.1) (foldl_max_le_init rest _)
    · rw [List.foldl_cons]
      exact ih her _

/-- Helper: Python's string join raises a TypeError on any non-empty list of
ints. -/
theorem strJoin_int_error (l : List Nat) (h : l ≠ []) :
    strJoin ", " (l.map (fun i => PyVal.int (i : Int))) = Except.error PyErr.typeError := by
  cases l with
  | nil => exact absurd rfl h
  | cons a rest => rfl

/-- C2 counterexample: two files assigned to the same (cycle, position) pair
do not always yield a repetition warning — when the collision leaves a gap in
the cycle sequence as well, the gap branch runs instead (and its warning
crashes on the integer join), so no repetition warning is reported. -/
theorem repetition_warning_not_always_reported :
    ¬ ([("a", 1, 0), ("b", 1, 0)] : List (String × Nat × Nat)).Pairwise
        (fun a b => a.2 ≠ b.2) ∧
      processOrderingTab [("a", 1, 0), ("b", 1, 0)] [] ≠ TabOutcome.repetitionWarning :=
  ⟨by decide, by decide⟩

/-- C2 (amended): for every flat per-file (cycle, position) buffer in which at
least two filenames share a pair, the inversion detects the repetition while
scanning the pre-inversion entries (the flag is set even though the later file
silently overwrites the earlier one in the intermediate slot buffer), and no
new ordering is ever installed; the repetition warning itself is reported
exactly when the cycle sequence additionally has no gap. -/
theorem repetition_detected_and_never_installed :
    ∀ (entries : List (String × Nat × Nat)) (cur : List (List String)),
      ¬ entries.Pairwise (fun a b => a.2 ≠ b.2) →
      (invert entries).1 = true ∧
        (∀ o, processOrderingTab entries cur ≠ TabOutcome.installed o) ∧
        processOrderingTab entries cur ≠ TabOutcome.unchanged ∧
        (missingOf (invert entries).2 = [] →
          processOrderingTab entries cur = TabOutcome.repetitionWarning) := by
  intro entries cur hcol
  have hflag : (invert entries).1 = true := by
    apply invert_fold_flag
    · intro e he
      rw [List.length_replicate]
      exact Nat.lt_succ_of_le (maxCycleOf_bound entries e he)
    · right; left; exact hcol
  by_cases hm : missingOf (invert entries).2 = []
  · have hout : processOrderingTab entries cur = TabOutcome.repetitionWarning := by
      simp [processOrderingTab, hm, hflag]
    exact ⟨hflag, fun o => by simp [hout], by simp [hout], fun _ => hout⟩
  · have hout : processOrderingTab entries cur = TabOutcome.crash PyErr.typeError := by
      have hij := strJoin_int_error (missingOf (invert entries).2) hm
      simp only [processOrderingTab]
      rw [if_pos hm, hij]
    exact ⟨hflag, fun o => by simp [hout], by simp [hout], fun h => absurd h hm⟩

/-- C2 witness: two files both assigned to (cycle 0, position 0) — the
repetition flag is set on the pre-inversion scan and, the sequence having no
gap, the repetition warning is reported. -/
theorem repetition_detected_witness :
    (invert [("a", 0, 0), ("b", 0, 0)]).1 = true ∧
      processOrderingTab [("a", 0, 0), ("b", 0, 0)] [] = TabOutcome.repetitionWarning := by
  have h := repetition_detected_and_never_installed [("a", 0, 0), ("b", 0, 0)] [] (by decide)
  exact ⟨h.1, h.2.2.2 (by decide)⟩

/-- Helper: a state that just went through
`_update_cycles_based_objects` carries a CellCycling that is the fresh
rebuild with the manual-hide list re-applied. -/
theorem update_invariant (st : ExpState) :
    (updateCyclesBasedObjects st).cellcycling =
      ccHide (getCycles (updateCyclesBasedObjects st).registry
        (updateCyclesBasedObjects st).ordering (updateCyclesBasedObjects st).clean)
        (updateCyclesBasedObjects st).manualHide := rfl

/-- Helper: when the ordering setter succeeds its final state is the rebuilt
state carrying the new ordering. -/
theorem orderingSetter_ok (st : ExpState) (o : List (List String))
    (h : (orderingSetter st o).error = none) :
    (orderingSetter st o).state = updateCyclesBasedObjects { st with ordering := o } := by
  simp only [orderingSetter] at h ⊢
  cases hf : (registryKeys st.registry).find? (fun key => decide (key ∉ o.flatten)) with
  | some k => rw [hf] at h; simp at h
  | none =>
    cases hg : (o.flatten).find? (fun name => decide (name ∉ registryKeys st.registry)) with
    | some m => rw [hf, hg] at h; simp at h
    | none => rfl

/-- C6: every rebuild-triggering operation — ordering change, clean-flag
change, file append or removal, hide, unhide — leaves the experiment with a
CellCycling equal to the fresh rebuild from (registry, ordering, clean) with
the manually hidden cycle numbers re-applied: the manual-hide set owned by
the experiment survives every rebuild. -/
theorem manual_hide_reapplied_after_rebuild :
    ∀ (op : ExpOp) (st st' : ExpState),
      triggersRebuild op = true → applyOp op st = Except.ok st' →
      st'.cellcycling =
        ccHide (getCycles st'.registry st'.ordering st'.clean) st'.manualHide := by
  intro op st st' htr happ
  cases op with
  | setOrdering o =>
    simp only [applyOp] at happ
    cases herr : (orderingSetter st o).error with
    | some e => rw [herr] at happ; simp at happ
    | none =>
      rw [herr] at happ
      obtain rfl := Except.ok.inj happ
      rw [orderingSetter_ok st o herr]
      exact update_invariant _
  | setClean b =>
    simp only [applyOp] at happ
    obtain rfl := Except.ok.inj happ
    exact update_invariant _
  | appendFile n hc ap =>
    cases ap with
    | false => simp [triggersRebuild] at htr
    | true =>
      simp only [applyOp] at happ
      obtain rfl := Except.ok.inj happ
      exact update_invariant _
  | removeFile n =>
    simp only [applyOp, removeFileExp] at happ
    split at happ
    · obtain rfl := Except.ok.inj happ
      exact update_invariant _
    · simp at happ
  | hideCycle n =>
    simp only [applyOp] at happ
    obtain rfl := Except.ok.inj happ
    exact update_invariant _
  | unhideAll =>
    simp only [applyOp] at happ
    obtain rfl := Except.ok.inj happ
    exact update_invariant _

/-- C6 witness: toggling the clean flag on the sample experiment rebuilds and
re-applies the manual-hide list. -/
theorem manual_hide_reapplied_witness :
    (cleanSetter true eA).cellcycling =
      ccHide (getCycles (cleanSetter true eA).registry (cleanSetter true eA).ordering
        (cleanSetter true eA).clean) (cleanSetter true eA).manualHide :=
  manual_hide_reapplied_after_rebuild (ExpOp.setClean true) eA (cleanSetter true eA) rfl rfl

/-- Helper: hiding an empty list of numbers changes nothing. -/
theorem ccHide_nil (cc : CellCyclingS) : ccHide cc [] = cc := by
  simp [ccHide]

/-- Helper: a hide pass whose result is fully visible changed nothing. -/
theorem ccHide_all_visible (cc : CellCyclingS) (nums : List Int)
    (h : ∀ c ∈ ccHide cc nums, c.hidden = false) : ccHide cc nums = cc := by
  induction cc with
  | nil => rfl
  | cons c rest ih =>
    simp only [ccHide, List.map_cons] at h ⊢
    by_cases hc : nums.contains ((c.number : Int))
    · exfalso
      have hh := h (if nums.contains ((c.number : Int)) then { c with hidden := true } else c)
        (List.mem_cons_self _ _)
      rw [if_pos hc] at hh
      simp at hh
    · rw [if_neg hc]
      have ht : ccHide rest nums = rest :=
        ih (fun x hx => h x (List.mem_cons_of_mem _ hx))
      simp only [ccHide] at ht
      rw [ht]

/-- C7 counterexample: from a state in which cycle 0 is already manually
hidden, hiding cycle 1 and then unhiding all does not restore the pre-hide
visibility — `unhide_all_cycles` clears the whole manual-hide list, so cycle 0
comes back visible. -/
theorem hide_unhide_not_roundtrip :
    visibility (unhideAllExp (hideCycleExp 1 (hideCycleExp 0 eA))) ≠
      visibility (hideCycleExp 0 eA) := by
  decide

/-- C7 (amended): from every reachable experiment state in which every cycle
is currently visible, `hide_cycle(n)` followed by `unhide_all_cycles()`
restores, for every cycle, the visibility it had before the hide. -/
theorem hide_unhide_roundtrip_from_visible :
    ∀ (st : ExpState) (n : Int),
      Consistent st →
      (∀ c ∈ st.cellcycling, c.hidden = false) →
      visibility (unhideAllExp (hideCycleExp n st)) = visibility st := by
  intro st n hcons hvis
  have h2 : (unhideAllExp (hideCycleExp n st)).cellcycling =
      ccHide (getCycles st.registry st.ordering st.clean) [] := rfl
  have h4 : ccHide (getCycles st.registry st.ordering st.clean) st.manualHide =
      getCycles st.registry st.ordering st.clean := by
    apply ccHide_all_visible
    intro c hc
    apply hvis
    rw [Consistent] at hcons
    rw [hcons]
    exact hc
  simp only [visibility]
  rw [h2, ccHide_nil]
  rw [Consistent] at hcons
  rw [hcons, h4]

/-- C7 witness: the freshly constructed sample experiment is reachable and
fully visible; hiding cycle 0 and unhiding all restores its visibility. -/
theorem hide_unhide_roundtrip_witness :
    visibility (unhideAllExp (hideCycleExp 0 eA)) = visibility eA :=
  hide_unhide_roundtrip_from_visible eA 0 rfl (by decide)

/-- Helper: the cumulative fold from any accumulator appends the recursive
characterization seeded with the accumulator's last element. -/
theorem foldl_cumulativeStep (l : List Int) :
    ∀ acc : List Int, l.foldl cumulativeStep acc = acc ++ cumulAux acc.getLast? l := by
  induction l with
  | nil => intro acc; simp [cumulAux]
  | cons n rest ih =>
    intro acc
    rw [List.foldl_cons, ih (cumulativeStep acc n)]
    simp only [cumulativeStep]
    rw [List.getLast?_concat]
    simp only [cumulAux]
    rw [List.append_assoc, List.singleton_append]

/-- Helper: the code's cumulative sum equals the recursive characterization. -/
theorem cumulativeSum_eq (nums : List Int) : cumulativeSum nums = cumulAux none nums := by
  rw [cumulativeSum, foldl_cumulativeStep]
  rfl

/-- Helper: seeding the characterization with a previous threshold shifts
every entry by that threshold plus one. -/
theorem cumulAux_shift (l : List Int) :
    ∀ p : Int, cumulAux (some p) l = (cumulAux none l).map (fun x => x + p + 1) := by
  induction l with
  | nil => intro p; rfl
  | cons n rest ih =>
    intro p
    simp only [cumulAux, List.map_cons]
    rw [ih (p + n + 1), ih n, List.map_map]
    congr 1
    · omega
    · apply List.map_congr_left
      intro a _
      simp only [Function.comp_apply]
      omega

/-- Helper: the offset over a cons at a successor index peels the head. -/
theorem offsetSpec_cons (n : Int) (rest : List Int) :
    ∀ i : Nat, offsetSpec (n :: rest) (i + 1) = offsetSpec rest i + n + 1 := by
  intro i
  induction i with
  | zero => simp [offsetSpec]
  | succ i ih =>
    have h1 : offsetSpec (n :: rest) (i + 2) =
        offsetSpec (n :: rest) (i + 1) + (n :: rest).getD (i + 1) 0 + 1 := rfl
    have h2 : offsetSpec rest (i + 1) = offsetSpec rest i + rest.getD i 0 + 1 := rfl
    rw [h1, ih, h2, List.getD_cons_succ]
    omega

/-- Helper: the threshold at index 0 of a cons is the head. -/
theorem thresholdSpec_zero (n : Int) (rest : List Int) :
    thresholdSpec (n :: rest) 0 = n := by
  simp [thresholdSpec, offsetSpec]

/-- Helper: the threshold over a cons at a successor index peels the head. -/
theorem thresholdSpec_cons (n : Int) (rest : List Int) (i : Nat) :
    thresholdSpec (n :: rest) (i + 1) = thresholdSpec rest i + n + 1 := by
  simp only [thresholdSpec, offsetSpec_cons, List.getD_cons_succ]
  omega

/-- Helper: the cumulative-sum list realizes the spec's thresholds. -/
theorem cumulativeSum_get (nums : List Int) :
    ∀ i : Nat, i < nums.length →
      (cumulativeSum nums).get? i = some (thresholdSpec nums i) := by
  rw [cumulativeSum_eq]
  induction nums with
  | nil => intro i hi; simp at hi
  | cons n rest ih =>
    intro i hi
    simp only [cumulAux]
    cases i with
    | zero =>
      rw [thresholdSpec_zero]
      rfl
    | succ i =>
      rw [List.get?_cons_succ, cumulAux_shift, List.get?_map,
        ih i (by simpa using hi), thresholdSpec_cons]
      rfl

/-- Helper: the local id formula shifts across a cons of the threshold
list. -/
theorem selCid_shift (g t : Int) (rest : List Int) (prev : Option Int) :
    ∀ i : Nat, selCid g rest (some t) i = selCid g (t :: rest) prev (i + 1) := by
  intro i
  cases i with
  | zero => simp [selCid]
  | succ i => simp [selCid]

/-- Helper: the selection loop stops at the first index whose threshold
reaches the requested id, producing the matching local id. -/
theorem selectLoop_spec (cum : List Int) :
    ∀ (i k : Nat) (g : Int) (prev : Option Int) (ti : Int),
      (∀ j, j < i → ∃ tj, cum.get? j = some tj ∧ tj < g) →
      cum.get? i = some ti → g ≤ ti →
      selectLoop g cum k prev = some (k + i, selCid g cum prev i) := by
  induction cum with
  | nil => intro i k g prev ti _ hti; simp at hti
  | cons t rest ih =>
    intro i k g prev ti hmin hti hg
    cases i with
    | zero =>
      rw [List.get?_cons_zero] at hti
      have he := Option.some.inj hti
      simp only [selectLoop]
      rw [if_pos (by omega)]
      simp only [selCid, Nat.add_zero]
    | succ i =>
      obtain ⟨t0, ht0, ht0g⟩ := hmin 0 (Nat.succ_pos i)
      rw [List.get?_cons_zero] at ht0
      have he := Option.some.inj ht0
      simp only [selectLoop]
      rw [if_neg (by omega)]
      rw [List.get?_cons_succ] at hti
      have hmin' : ∀ j, j < i → ∃ tj, rest.get? j = some tj ∧ tj < g := by
        intro j hj
        obtain ⟨tj, htj, htjg⟩ := hmin (j + 1) (by omega)
        rw [List.get?_cons_succ] at htj
        exact ⟨tj, htj, htjg⟩
      rw [ih i (k + 1) g (some t) ti hmin' hti hg, ← selCid_shift]
      congr 2
      omega

/-- Helper: the last cycle number of a member with contiguous numbers 0..c-1
is c - 1. -/
theorem contiguousTo_getLast (c : Nat) (h : 0 < c) :
    (contiguousTo c).getLast? = some (Int.ofNat c - 1) := by
  obtain ⟨c', rfl⟩ : ∃ c', c = c' + 1 := ⟨c - 1, by omega⟩
  rw [contiguousTo, List.range_succ, List.map_append]
  simp only [List.map_cons, List.map_nil]
  rw [List.getLast?_concat]
  congr 1
  simp only [Int.ofNat_eq_coe]
  omega

/-- Helper: on a container whose members have contiguous positive cycle
counts, `max_cycles_numbers` succeeds and returns each count minus one. -/
theorem maxCyclesNumbers_of_contiguous :
    ∀ (exps : List ExpState) (counts : List Nat),
      List.Forall₂ (fun e c => expNumbers e = contiguousTo c ∧ 0 < c) exps counts →
      maxCyclesNumbers exps = some (maxNumsOf counts) := by
  intro exps counts h
  induction h with
  | nil => rfl
  | cons he hrest ih =>
    simp only [maxCyclesNumbers, he.1, contiguousTo_getLast _ he.2, ih, maxNumsOf,
      List.map_cons]

/-- C1: on a container whose members all have contiguous cycle numbers
0..c-1, hiding by a global index g selects the smallest member index i with
g ≤ cumulative_threshold(i) — thresholds built from offset(0) = 0 and
offset(i) = offset(i-1) + max_cycle_number(i-1) + 1, the i = 0 case handled
without a prior offset — and forwards the local index g - offset(i) to that
member's hide. -/
theorem container_hide_cycle_spec :
    ∀ (exps : List ExpState) (counts : List Nat) (g : Int) (i : Nat),
      List.Forall₂ (fun e c => expNumbers e = contiguousTo c ∧ 0 < c) exps counts →
      i < exps.length →
      g ≤ thresholdSpec (maxNumsOf counts) i →
      (∀ j, j < i → thresholdSpec (maxNumsOf counts) j < g) →
      containerHideCycle exps g =
        some (exps.set i (hideCycleExp (g - offsetSpec (maxNumsOf counts) i)
          (exps.getD i default))) := by
  intro exps counts g i hf hi hg hmin
  have hlen : exps.length = counts.length := List.Forall₂.length_eq hf
  have hnums : (maxNumsOf counts).length = counts.length := by simp [maxNumsOf]
  have hilen : i < (maxNumsOf counts).length := by omega
  have hmax := maxCyclesNumbers_of_contiguous exps counts hf
  have hcumi := cumulativeSum_get (maxNumsOf counts) i hilen
  have hmin' : ∀ j, j < i →
      ∃ tj, (cumulativeSum (maxNumsOf counts)).get? j = some tj ∧ tj < g := by
    intro j hj
    exact ⟨thresholdSpec (maxNumsOf counts) j,
      cumulativeSum_get _ j (by omega), hmin j hj⟩
  have hsel := selectLoop_spec (cumulativeSum (maxNumsOf counts)) i 0 g none
    (thresholdSpec (maxNumsOf counts) i) hmin' hcumi hg
  have hcid : selCid g (cumulativeSum (maxNumsOf counts)) none i =
      g - offsetSpec (maxNumsOf counts) i := by
    cases i with
    | zero => simp [selCid, offsetSpec]
    | succ j =>
      simp only [selCid]
      rw [cumulativeSum_get (maxNumsOf counts) j (by omega)]
      have hoff : offsetSpec (maxNumsOf counts) (j + 1) =
          offsetSpec (maxNumsOf counts) j + (maxNumsOf counts).getD j 0 + 1 := rfl
      simp only [Option.getD_some, thresholdSpec, hoff]
      omega
  have hget : exps.get? i = some (exps.getD i default) := by
    rw [List.getD_eq_getElem?_getD, List.get?_eq_getElem?, List.getElem?_eq_getElem hi]
    rfl
  simp only [containerHideCycle, hmax, hsel, Nat.zero_add, hget, hcid]

/-- C1 witness: a container of members with 3 and 2 cycles — global index 3
resolves to the second member's local cycle 0 and hides it there. -/
theorem container_hide_cycle_witness :
    containerHideCycle [eA, eB] 3 = some [eA, hideCycleExp 0 eB] := by
  have hf : List.Forall₂ (fun e c => expNumbers e = contiguousTo c ∧ 0 < c)
      [eA, eB] [3, 2] :=
    List.Forall₂.cons ⟨by decide, by decide⟩
      (List.Forall₂.cons ⟨by decide, by decide⟩ List.Forall₂.nil)
  have h := container_hide_cycle_spec [eA, eB] [3, 2] 3 1 hf (by decide) (by decide)
    (by decide)
  rw [h]
  decide

end CellGui
